import Mathlib

/-!
Verification development for the attendance-system repository (src/vsv.py).

The file shallowly embeds the recognition/attendance core of the source:
the attendance ledger (SQLite table with a UNIQUE(student_id, date)
ON CONFLICT IGNORE constraint, lines 131-146), the candidate loaders
(lines 151-207), the group/course/single recognition loops with their
hysteresis counters (lines 542-633, 769-857, 987-1037) and the commit
paths (lines 591-609, 808-834, 964-984).

Modelling conventions:
  - Face embeddings are opaque: a detected region is represented by its
    vector of distances to the candidate list, and the embedding type E
    is a type parameter wherever the source only stores encodings.
  - Python floats are modelled as rationals; the distances involved in
    the claims are exact decimals, so no floating-point issue arises.
  - Python dicts with .get(k, 0) defaults are modelled as total
    functions with default 0; Python sets as lists with membership.
  - max(0, c - 1) on a nonnegative int counter is Nat truncated
    subtraction c - 1, which agrees exactly.
  - The commit logs (GroupState.commits, CourseState.commits,
    SingleState.attempts) are ghost instrumentation recording each
    execution of the corresponding INSERT / mark_attendance_single call;
    they are appended exactly where the source executes that statement
    and are read by no branch condition.
-/

namespace VSV

/-! ### Configuration constants (src/vsv.py lines 101-104) -/

def TOLERANCE : ℚ := 4/10

def REQ_CONSEC : ℕ := 5

def GROUP_REQ_CONSEC : ℕ := 3

/-! ### Data model: students table and attendance ledger rows -/

/-- One row of the students relation (id PRIMARY KEY, reg_no, name,
course, photo_path); mobile and qr_path are irrelevant to the core. -/
structure Student where
  id : ℕ
  reg_no : String
  name : String
  course : String
  photo_path : Option String
deriving DecidableEq, Repr

/-- One row of the attendance relation (student_id, date, time,
match_percentage), src/vsv.py lines 131-142. -/
structure AttendanceRecord where
  student_id : ℕ
  date : String
  time : String
  match_percentage : ℚ
deriving DecidableEq, Repr

/-- Whether the ledger already holds a row for (sid, d); the SELECT used
by mark_attendance_single (line 970) and the check performed by the
UNIQUE(student_id, date) constraint. -/
def hasRecord (db : List AttendanceRecord) (sid : ℕ) (d : String) : Bool :=
  db.any fun r => r.student_id == sid && r.date == d

/-- INSERT OR IGNORE INTO attendance: because of the table constraint
UNIQUE(student_id, date) ON CONFLICT IGNORE (line 139), an insert for an
already present (student_id, date) pair leaves the table unchanged. -/
def insert_or_ignore (db : List AttendanceRecord) (r : AttendanceRecord) :
    List AttendanceRecord :=
  if hasRecord db r.student_id r.date then db else db ++ [r]

/-- The ledger invariant: at most one row per (student_id, date) pair. -/
def UniquePairs (db : List AttendanceRecord) : Prop :=
  db.Pairwise fun a b => ¬(a.student_id = b.student_id ∧ a.date = b.date)

/-- mark_attendance_single (lines 964-984): read-check for today's row,
returning False (alreadyMarked) without touching the table, else insert
the new row and return True (created).  The INSERT itself runs against
the table whose schema carries ON CONFLICT IGNORE, hence the
insert_or_ignore; in this branch the pair is absent so it appends. -/
def mark_attendance_single (db : List AttendanceRecord) (sid : ℕ)
    (today now_time : String) (p : ℚ) : Bool × List AttendanceRecord :=
  if hasRecord db sid today then (false, db)
  else (true, insert_or_ignore db ⟨sid, today, now_time, p⟩)

/-- The spec vocabulary for commit outcomes. -/
inductive CommitOutcome where
  | created
  | alreadyMarked
deriving DecidableEq, Repr

/-- Mapping from the source's boolean return value of
mark_attendance_single to the spec's outcome vocabulary.  True means the
row was inserted. -/
def commit_outcome (saved : Bool) : CommitOutcome :=
  if saved then .created else .alreadyMarked

/-- One ledger commit attempt, from whichever session: group and course
mode run a bare INSERT OR IGNORE (lines 595-606, 814-825); single mode
runs mark_attendance_single.  A concurrent history is an arbitrary
interleaving of such attempts, since SQLite serialises writers. -/
inductive CommitAttempt where
  | orIgnore (r : AttendanceRecord)
  | checkedInsert (sid : ℕ) (today now_time : String) (p : ℚ)
deriving DecidableEq, Repr

/-- Effect of one commit attempt on the ledger. -/
def applyCommit (db : List AttendanceRecord) : CommitAttempt → List AttendanceRecord
  | .orIgnore r => insert_or_ignore db r
  | .checkedInsert sid today now_time p =>
      (mark_attendance_single db sid today now_time p).2

/-- The (identity, date) pair an attempt targets. -/
def attemptPair : CommitAttempt → ℕ × String
  | .orIgnore r => (r.student_id, r.date)
  | .checkedInsert sid today _ _ => (sid, today)

/-- A whole history of commit attempts applied in order. -/
def commitSeq (db : List AttendanceRecord) (ops : List CommitAttempt) :
    List AttendanceRecord :=
  ops.foldl applyCommit db

/-! ### Identity store (src/vsv.py lines 151-207) -/

/-- safe_face_encoding_from_file (lines 151-159): None when the path is
falsy (absent or empty) or the file does not exist; the embedding
pipeline (load_image_file + face_encodings) is the parameter fe, where
fe p = none models the except branch and fe p = some encs the computed
encodings list; encs[0] if encs else None is encs.head?. -/
def safe_face_encoding_from_file {E : Type} (fsExists : String → Bool)
    (fe : String → Option (List E)) : Option String → Option E
  | none => none
  | some p =>
      if p = "" then none
      else if fsExists p then
        match fe p with
        | none => none
        | some encs => encs.head?
      else none

/-- The per-row encoding lookup in the loaders (lines 172-176, 197-201):
ENCODING_CACHE first, else derive from the photo file. -/
def getEnc {E : Type} (cache : ℕ → Option E) (fsExists : String → Bool)
    (fe : String → Option (List E)) (st : Student) : Option E :=
  match cache st.id with
  | some e => some e
  | none => safe_face_encoding_from_file fsExists fe st.photo_path

/-- A row has a usable embedding for the candidate set. -/
def usableB {E : Type} (cache : ℕ → Option E) (fsExists : String → Bool)
    (fe : String → Option (List E)) (st : Student) : Bool :=
  (getEnc cache fsExists fe st).isSome

/-- The display label built by the loaders (lines 180, 205): name is
falsy exactly when it is the empty string. -/
def studentLabel (st : Student) : String :=
  if st.name = "" then st.reg_no else st.reg_no ++ " | " ++ st.name

/-- ORDER BY reg_no in the loader queries (lines 168, 191, and the
display queries at 1278, 1302): stable sort by registration number. -/
def orderByRegNo (l : List Student) : List Student :=
  List.insertionSort (fun a b => a.reg_no ≤ b.reg_no) l

/-- One iteration of the loader for-loop body (lines 170-182): append
the row's encoding, id and label when an encoding is available, else
skip the row. -/
def loadRow {E : Type} (cache : ℕ → Option E) (fsExists : String → Bool)
    (fe : String → Option (List E))
    (acc : List E × List ℕ × List String) (st : Student) :
    List E × List ℕ × List String :=
  match getEnc cache fsExists fe st with
  | some e => (acc.1 ++ [e], acc.2.1 ++ [st.id], acc.2.2 ++ [studentLabel st])
  | none => acc

/-- load_all_face_encodings (lines 164-182). -/
def load_all_face_encodings {E : Type} (cache : ℕ → Option E)
    (fsExists : String → Bool) (fe : String → Option (List E))
    (students : List Student) : List E × List ℕ × List String :=
  (orderByRegNo students).foldl (loadRow cache fsExists fe) ([], [], [])

/-- load_course_face_encodings (lines 184-207): WHERE course = ? then
ORDER BY reg_no; an empty course name short-circuits to empty lists. -/
def load_course_face_encodings {E : Type} (cache : ℕ → Option E)
    (fsExists : String → Bool) (fe : String → Option (List E))
    (students : List Student) (course_name : String) :
    List E × List ℕ × List String :=
  if course_name = "" then ([], [], [])
  else
    (orderByRegNo (students.filter fun st => st.course == course_name)).foldl
      (loadRow cache fsExists fe) ([], [], [])

/-- The people list used for display (open_view_students load_students,
lines 1297-1306): every students row, ordered by reg_no, regardless of
photo usability. -/
def load_students (students : List Student) : List Student :=
  orderByRegNo students

/-! ### Match engine (lines 563-572, 786-794, 1001-1003) -/

/-- Scan of the remaining distance list keeping the running argmin;
strict comparison keeps the first occurrence of the minimum, matching
numpy argmin. -/
def bestFrom (bi : ℕ) (bd : ℚ) (i : ℕ) : List ℚ → ℕ × ℚ
  | [] => (bi, bd)
  | d :: ds => if d < bd then bestFrom i d (i + 1) ds else bestFrom bi bd (i + 1) ds

/-- dists.argmin() together with dists[best_idx]; none on an empty
vector (the loop skips that region, lines 565-566). -/
def argminQ : List ℚ → Option (ℕ × ℚ)
  | [] => none
  | d :: ds => some (bestFrom 0 d 1 ds)

/-- is_match in the group loop (line 572). -/
def is_match_group (best_dist : ℚ) : Bool :=
  best_dist ≤ TOLERANCE

/-- is_match in the course loop (line 794). -/
def is_match_course (best_dist : ℚ) : Bool :=
  best_dist ≤ TOLERANCE

/-- is_match in the single loop (line 1003). -/
def is_match_single (dist : ℚ) : Bool :=
  dist ≤ TOLERANCE

/-- Python max on two rationals (equal to Mathlib max, see qmax_eq_max;
spelled out so that concrete traces evaluate inside the kernel). -/
def qmax (a b : ℚ) : ℚ := if a ≤ b then b else a

/-- Python min on two rationals (equal to Mathlib min, see qmin_eq_min). -/
def qmin (a b : ℚ) : ℚ := if a ≤ b then a else b

/-- Confidence percentage in the group loop (line 571):
max(0.0, min(1.0, 1.0 - best_dist)) * 100.0. -/
def pct_group (best_dist : ℚ) : ℚ :=
  qmax 0 (qmin 1 (1 - best_dist)) * 100

/-- Confidence percentage in the course loop (line 793). -/
def pct_course (best_dist : ℚ) : ℚ :=
  qmax 0 (qmin 1 (1 - best_dist)) * 100

/-- Confidence percentage in the single loop (line 1002). -/
def pct_single (dist : ℚ) : ℚ :=
  qmax 0 (qmin 1 (1 - dist)) * 100

/-- The identity a detected region resolves to: the candidate at the
argmin index of its distance vector (lines 567-569). -/
def bestSid (ids : List ℕ) (dists : List ℚ) : Option ℕ :=
  (argminQ dists).map fun p => ids.getD p.1 0

/-! ### Group session state and frame loop (lines 501-633) -/

/-- refresh_present_list (lines 503-524): re-read the db and rebuild the
already_marked set as every student id with a row dated today. -/
def refresh_present_list (db : List AttendanceRecord) (today : String) : List ℕ :=
  (db.filter fun r => r.date == today).map fun r => r.student_id

/-- Session-local state of the group tab: frame_counts (dict with
default 0), already_marked (set), the attendance table, and a ghost log
of executed INSERTs as (sid, pct) in order. -/
structure GroupState where
  frame_counts : ℕ → ℕ
  already_marked : List ℕ
  db : List AttendanceRecord
  commits : List (ℕ × ℚ)

/-- Body of the group loop for one detected region (lines 559-612),
with the threshold a parameter (the source binds threshold =
GROUP_REQ_CONSEC at line 590).  dists is the region's distance vector
over the candidate list ids.  On a match the counter increments; when
it reaches the threshold and the id is not yet in already_marked, the
row is inserted (INSERT OR IGNORE), already_marked.add(sid) runs and is
then overwritten by the refresh_present_list() call at line 609, which
rebuilds the set from the db; on a non-match the counter decrements,
floored at zero. -/
def processRegionGroupT (threshold : ℕ) (ids : List ℕ)
    (now_date now_time today : String) (s : GroupState) (dists : List ℚ) :
    GroupState :=
  match argminQ dists with
  | none => s
  | some (bi, bd) =>
      let sid := ids.getD bi 0
      if is_match_group bd then
        let c := s.frame_counts sid + 1
        let s1 : GroupState :=
          { s with frame_counts := fun j => if j = sid then c else s.frame_counts j }
        if threshold ≤ c ∧ sid ∉ s1.already_marked then
          let db2 := insert_or_ignore s1.db ⟨sid, now_date, now_time, pct_group bd⟩
          { s1 with
            db := db2
            already_marked := refresh_present_list db2 today
            commits := s1.commits ++ [(sid, pct_group bd)] }
        else s1
      else
        { s with
          frame_counts := fun j =>
            if j = sid then s.frame_counts sid - 1 else s.frame_counts j }

/-- One processed frame of the group loop: its detected regions handled
in order. -/
def processFrameGroupT (threshold : ℕ) (ids : List ℕ)
    (now_date now_time today : String) (s : GroupState)
    (regions : List (List ℚ)) : GroupState :=
  regions.foldl (processRegionGroupT threshold ids now_date now_time today) s

/-- The group loop with its actual threshold GROUP_REQ_CONSEC. -/
def processFrameGroup (ids : List ℕ) (now_date now_time today : String)
    (s : GroupState) (regions : List (List ℚ)) : GroupState :=
  processFrameGroupT GROUP_REQ_CONSEC ids now_date now_time today s regions

/-- Group session start (lines 501-539): counters empty, already_marked
loaded from the db for today, no commit yet. -/
def initGroupState (db : List AttendanceRecord) (today : String) : GroupState :=
  { frame_counts := fun _ => 0
    already_marked := refresh_present_list db today
    db := db
    commits := [] }

/-- A sequence of processed frames of the group loop. -/
def runGroupT (threshold : ℕ) (ids : List ℕ) (now_date now_time today : String)
    (s : GroupState) (frames : List (List (List ℚ))) : GroupState :=
  frames.foldl (processFrameGroupT threshold ids now_date now_time today) s

/-- One processed frame showing a single face whose distance to the one
candidate x is d: the single-candidate trace used by the
ConfirmationTracker properties. -/
def stepOne (threshold : ℕ) (x : ℕ) (s : GroupState) (d : ℚ) : GroupState :=
  processFrameGroupT threshold [x] "2025-01-01" "09:00:00" "2025-01-01" s [[d]]

/-- Run the group loop from a fresh session (empty ledger) on a list of
per-frame distances for the single candidate x. -/
def runOne (threshold : ℕ) (x : ℕ) (ds : List ℚ) : GroupState :=
  ds.foldl (stepOne threshold x) (initGroupState [] "2025-01-01")

/-- Number of ledger commits fired for sid in a ghost commit log. -/
def countFor (sid : ℕ) (commits : List (ℕ × ℚ)) : ℕ :=
  (commits.filter fun p => p.1 == sid).length

/-! ### Course session state (lines 716-857) -/

/-- Session-local state of the course tab: candidate ids of the loaded
course, frame_counts_c, course_marked, the attendance table and the
ghost commit log. -/
structure CourseState where
  known_ids_c : List ℕ
  frame_counts_c : ℕ → ℕ
  course_marked : List ℕ
  db : List AttendanceRecord
  commits : List (ℕ × ℚ)

/-- refresh_present_list_course (lines 723-741): clear course_marked
and rebuild it from today's attendance rows joined to students of the
selected course. -/
def refresh_present_list_course (students : List Student)
    (db : List AttendanceRecord) (today course : String) : List ℕ :=
  db.filterMap fun a =>
    match students.find? (fun st => st.id == a.student_id) with
    | some st =>
        if a.date == today && st.course == course then some st.id else none
    | none => none

/-- load_course_faces (lines 743-756): reload the candidate set for the
selected course, clear every hysteresis counter, and rebuild
course_marked from the db; a blank selection only warns and changes
nothing. -/
def load_course_faces {E : Type} (cache : ℕ → Option E)
    (fsExists : String → Bool) (fe : String → Option (List E))
    (students : List Student) (today course : String) (s : CourseState) :
    CourseState :=
  if course = "" then s
  else
    { s with
      known_ids_c := (load_course_face_encodings cache fsExists fe students course).2.1
      frame_counts_c := fun _ => 0
      course_marked := refresh_present_list_course students s.db today course }

/-- Body of the course loop for one detected region (lines 784-836):
identical hysteresis to the group loop, except that after the INSERT
the id is added to course_marked directly (line 828) with no db
refresh. -/
def processRegionCourse (now_date now_time : String) (s : CourseState)
    (dists : List ℚ) : CourseState :=
  match argminQ dists with
  | none => s
  | some (bi, bd) =>
      let sid := s.known_ids_c.getD bi 0
      if is_match_course bd then
        let c := s.frame_counts_c sid + 1
        let s1 : CourseState :=
          { s with frame_counts_c := fun j => if j = sid then c else s.frame_counts_c j }
        if GROUP_REQ_CONSEC ≤ c ∧ sid ∉ s1.course_marked then
          { s1 with
            db := insert_or_ignore s1.db ⟨sid, now_date, now_time, pct_course bd⟩
            course_marked := sid :: s1.course_marked
            commits := s1.commits ++ [(sid, pct_course bd)] }
        else s1
      else
        { s with
          frame_counts_c := fun j =>
            if j = sid then s.frame_counts_c sid - 1 else s.frame_counts_c j }

/-- One processed frame of the course loop. -/
def processFrameCourse (now_date now_time : String) (s : CourseState)
    (regions : List (List ℚ)) : CourseState :=
  regions.foldl (processRegionCourse now_date now_time) s

/-- A sequence of processed frames of the course loop. -/
def runCourse (now_date now_time : String) (s : CourseState)
    (frames : List (List (List ℚ))) : CourseState :=
  frames.foldl (processFrameCourse now_date now_time) s

/-! ### Single session state (lines 912-1037) -/

/-- Session-local state of the single tab: the consecutive counter,
running_match and stored_encoding flags, the attendance table, and a
ghost count of mark_attendance_single calls. -/
structure SingleState where
  consecutive : ℕ
  running_match : Bool
  has_encoding : Bool
  db : List AttendanceRecord
  attempts : ℕ

/-- Body of loop_frame_single for one frame (lines 987-1037) while a
student is loaded: the frame is abstracted to the distance of its first
detected face to the stored encoding, or none when no face is detected.
The threshold test at line 1021 runs after either counter update, so a
decrementing frame can still trigger an attempt while the counter stays
at or above REQ_CONSEC; only a successful save stops the session
(lines 1023-1025). -/
def loop_frame_single_step (sid : ℕ) (today now_time : String)
    (s : SingleState) (dist? : Option ℚ) : SingleState :=
  if s.has_encoding && s.running_match then
    match dist? with
    | none => s
    | some dist =>
        let c := if is_match_single dist then s.consecutive + 1 else s.consecutive - 1
        let s1 : SingleState := { s with consecutive := c }
        if REQ_CONSEC ≤ c then
          let res := mark_attendance_single s1.db sid today now_time (pct_single dist)
          let s2 : SingleState := { s1 with db := res.2, attempts := s1.attempts + 1 }
          if res.1 then { s2 with running_match := false, has_encoding := false }
          else s2
        else s1
  else s

/-- A run of the single loop over a sequence of frames. -/
def runSingle (sid : ℕ) (today now_time : String) (s : SingleState)
    (frames : List (Option ℚ)) : SingleState :=
  frames.foldl (loop_frame_single_step sid today now_time) s

section RatKernelComputation

attribute [local semireducible] Rat.sub Rat.add Rat.mul Rat.inv

theorem qmax_eq_max (a b : ℚ) : qmax a b = max a b := by
  rw [qmax, max_def]

theorem qmin_eq_min (a b : ℚ) : qmin a b = min a b := by
  rw [qmin, min_def]

/-! ### Helper lemmas about the ledger -/

theorem hasRecord_eq_true_iff (db : List AttendanceRecord) (sid : ℕ) (d : String) :
    hasRecord db sid d = true ↔ ∃ r ∈ db, r.student_id = sid ∧ r.date = d := by
  simp [hasRecord, List.any_eq_true]

theorem uniquePairs_insert_or_ignore (db : List AttendanceRecord)
    (r : AttendanceRecord) (h : UniquePairs db) :
    UniquePairs (insert_or_ignore db r) := by
  unfold insert_or_ignore
  split
  · exact h
  · rename_i hnot
    rw [hasRecord_eq_true_iff] at hnot
    push_neg at hnot
    rw [UniquePairs, List.pairwise_append]
    refine ⟨h, List.pairwise_singleton _ _, ?_⟩
    intro a ha b hb
    simp only [List.mem_singleton] at hb
    subst hb
    intro hab
    exact hnot a ha hab.1 hab.2

theorem uniquePairs_applyCommit (db : List AttendanceRecord)
    (op : CommitAttempt) (h : UniquePairs db) :
    UniquePairs (applyCommit db op) := by
  cases op with
  | orIgnore r => exact uniquePairs_insert_or_ignore _ _ h
  | checkedInsert sid today tm p =>
    simp only [applyCommit, mark_attendance_single]
    split
    · exact h
    · exact uniquePairs_insert_or_ignore _ _ h

theorem uniquePairs_commitSeq (ops : List CommitAttempt) :
    ∀ db : List AttendanceRecord, UniquePairs db → UniquePairs (commitSeq db ops) := by
  induction ops with
  | nil => intro db h; exact h
  | cons op ops ih =>
    intro db h
    exact ih _ (uniquePairs_applyCommit db op h)

theorem applyCommit_noop (db : List AttendanceRecord) (op : CommitAttempt)
    (h : hasRecord db (attemptPair op).1 (attemptPair op).2 = true) :
    applyCommit db op = db := by
  cases op with
  | orIgnore r =>
    simp only [attemptPair] at h
    simp only [applyCommit, insert_or_ignore, h, if_true]
  | checkedInsert sid today tm p =>
    simp only [attemptPair] at h
    simp only [applyCommit, mark_attendance_single, h, if_true]

/-- C1: for every identity and calendar date at most one attendance row
exists for that pair, under any sequence of commit attempts from any of
the sessions (arbitrary interleavings of the serialised writers), and a
commit attempt for an already present pair leaves the ledger unchanged
rather than failing. -/
theorem C1_attendance_dedup :
    (∀ (db : List AttendanceRecord) (ops : List CommitAttempt),
        UniquePairs db → UniquePairs (commitSeq db ops)) ∧
    (∀ (db : List AttendanceRecord) (op : CommitAttempt),
        hasRecord db (attemptPair op).1 (attemptPair op).2 = true →
        applyCommit db op = db) :=
  ⟨fun db ops h => uniquePairs_commitSeq ops db h, applyCommit_noop⟩

/-- Witness for C1 at a concrete history: two racing inserts and a
checked insert for the same pair, starting from an empty ledger. -/
theorem C1_attendance_dedup_witness :
    UniquePairs (commitSeq []
      [.orIgnore ⟨1, "2025-01-01", "08:00:00", 70⟩,
       .orIgnore ⟨1, "2025-01-01", "08:00:01", 60⟩,
       .checkedInsert 1 "2025-01-01" "08:00:02" 90]) ∧
    applyCommit [⟨1, "2025-01-01", "08:00:00", 70⟩]
      (.orIgnore ⟨1, "2025-01-01", "08:00:01", 60⟩) =
      [⟨1, "2025-01-01", "08:00:00", 70⟩] :=
  ⟨C1_attendance_dedup.1 [] _ List.Pairwise.nil,
   C1_attendance_dedup.2 _ _ (by decide)⟩

/-! ### Branch lemmas for the group region body -/

theorem is_match_group_iff (d : ℚ) : is_match_group d = true ↔ d ≤ TOLERANCE := by
  simp [is_match_group]

theorem is_match_course_iff (d : ℚ) : is_match_course d = true ↔ d ≤ TOLERANCE := by
  simp [is_match_course]

theorem is_match_single_iff (d : ℚ) : is_match_single d = true ↔ d ≤ TOLERANCE := by
  simp [is_match_single]

theorem processRegionGroupT_none (T : ℕ) (ids : List ℕ) (dt tm td : String)
    (s : GroupState) (dists : List ℚ) (hA : argminQ dists = none) :
    processRegionGroupT T ids dt tm td s dists = s := by
  unfold processRegionGroupT
  rw [hA]

theorem processRegionGroupT_match_nocommit (T : ℕ) (ids : List ℕ)
    (dt tm td : String) (s : GroupState) (dists : List ℚ) (bi : ℕ) (bd : ℚ)
    (hA : argminQ dists = some (bi, bd)) (hd : bd ≤ TOLERANCE)
    (hno : ¬(T ≤ s.frame_counts (ids.getD bi 0) + 1 ∧ ids.getD bi 0 ∉ s.already_marked)) :
    processRegionGroupT T ids dt tm td s dists =
      { s with frame_counts := fun j =>
          if j = ids.getD bi 0 then s.frame_counts (ids.getD bi 0) + 1
          else s.frame_counts j } := by
  unfold processRegionGroupT
  rw [hA]
  dsimp only
  rw [if_pos ((is_match_group_iff bd).mpr hd)]
  rw [if_neg hno]

theorem processRegionGroupT_commit (T : ℕ) (ids : List ℕ)
    (dt tm td : String) (s : GroupState) (dists : List ℚ) (bi : ℕ) (bd : ℚ)
    (hA : argminQ dists = some (bi, bd)) (hd : bd ≤ TOLERANCE)
    (hT : T ≤ s.frame_counts (ids.getD bi 0) + 1)
    (hm : ids.getD bi 0 ∉ s.already_marked) :
    processRegionGroupT T ids dt tm td s dists =
      { frame_counts := fun j =>
          if j = ids.getD bi 0 then s.frame_counts (ids.getD bi 0) + 1
          else s.frame_counts j
        already_marked := refresh_present_list
          (insert_or_ignore s.db ⟨ids.getD bi 0, dt, tm, pct_group bd⟩) td
        db := insert_or_ignore s.db ⟨ids.getD bi 0, dt, tm, pct_group bd⟩
        commits := s.commits ++ [(ids.getD bi 0, pct_group bd)] } := by
  unfold processRegionGroupT
  rw [hA]
  dsimp only
  rw [if_pos ((is_match_group_iff bd).mpr hd)]
  rw [if_pos ⟨hT, hm⟩]

theorem processRegionGroupT_nomatch (T : ℕ) (ids : List ℕ)
    (dt tm td : String) (s : GroupState) (dists : List ℚ) (bi : ℕ) (bd : ℚ)
    (hA : argminQ dists = some (bi, bd)) (hd : ¬ bd ≤ TOLERANCE) :
    processRegionGroupT T ids dt tm td s dists =
      { s with frame_counts := fun j =>
          if j = ids.getD bi 0 then s.frame_counts (ids.getD bi 0) - 1
          else s.frame_counts j } := by
  unfold processRegionGroupT
  rw [hA]
  dsimp only
  rw [if_neg (fun h => hd ((is_match_group_iff bd).mp h))]

/-! ### Refresh and commit-log helpers -/

theorem mem_refresh_present_list (db : List AttendanceRecord) (td : String)
    (sid : ℕ) :
    sid ∈ refresh_present_list db td ↔
      ∃ r ∈ db, r.date = td ∧ r.student_id = sid := by
  simp only [refresh_present_list, List.mem_map, List.mem_filter]
  constructor
  · rintro ⟨r, ⟨hr, hdate⟩, hsid⟩
    exact ⟨r, hr, by simpa using hdate, hsid⟩
  · rintro ⟨r, hr, hdate, hsid⟩
    exact ⟨r, ⟨hr, by simpa using hdate⟩, hsid⟩

theorem subset_insert_or_ignore (db : List AttendanceRecord)
    (r : AttendanceRecord) : db ⊆ insert_or_ignore db r := by
  unfold insert_or_ignore
  split
  · exact fun a ha => ha
  · exact fun a ha => List.mem_append_left _ ha

theorem mem_refresh_insert (db : List AttendanceRecord) (sid : ℕ)
    (tm : String) (p : ℚ) (td : String) :
    sid ∈ refresh_present_list (insert_or_ignore db ⟨sid, td, tm, p⟩) td := by
  rw [mem_refresh_present_list]
  unfold insert_or_ignore
  split
  · rename_i h
    rw [hasRecord_eq_true_iff] at h
    obtain ⟨r, hr, hsid, hdate⟩ := h
    exact ⟨r, hr, hdate, hsid⟩
  · exact ⟨⟨sid, td, tm, p⟩, List.mem_append_right _ (List.mem_singleton_self _),
      rfl, rfl⟩

theorem refresh_mono_insert (db : List AttendanceRecord)
    (r : AttendanceRecord) (td : String) (sid : ℕ)
    (h : sid ∈ refresh_present_list db td) :
    sid ∈ refresh_present_list (insert_or_ignore db r) td := by
  rw [mem_refresh_present_list] at h ⊢
  obtain ⟨a, ha, hd, hs⟩ := h
  exact ⟨a, subset_insert_or_ignore db r ha, hd, hs⟩

theorem countFor_append_single (sid a : ℕ) (p : ℚ) (l : List (ℕ × ℚ)) :
    countFor sid (l ++ [(a, p)]) =
      countFor sid l + if a = sid then 1 else 0 := by
  simp only [countFor, List.filter_append]
  split
  · rename_i h
    simp [h]
  · rename_i h
    simp [List.filter_cons, h]

/-! ### ConfirmationTracker: single-candidate runs of the group loop -/

theorem stepOne_def (T x : ℕ) (s : GroupState) (d : ℚ) :
    stepOne T x s d =
      processRegionGroupT T [x] "2025-01-01" "09:00:00" "2025-01-01" s [d] := rfl

theorem argminQ_single (d : ℚ) : argminQ [d] = some (0, d) := rfl

theorem stepOne_nomatch (T x : ℕ) (s : GroupState) (d : ℚ)
    (hd : ¬ d ≤ TOLERANCE) :
    stepOne T x s d =
      { s with frame_counts := fun j =>
          if j = x then s.frame_counts x - 1 else s.frame_counts j } := by
  rw [stepOne_def]
  simpa using processRegionGroupT_nomatch T [x] "2025-01-01" "09:00:00"
    "2025-01-01" s [d] 0 d (argminQ_single d) hd

/-- Matching frames that keep the counter strictly below the threshold
only increment it and touch nothing else. -/
theorem runOne_below (T x : ℕ) :
    ∀ (ds : List ℚ) (s : GroupState), (∀ d ∈ ds, d ≤ TOLERANCE) →
      s.frame_counts x + ds.length < T →
      (ds.foldl (stepOne T x) s).frame_counts x = s.frame_counts x + ds.length ∧
      (ds.foldl (stepOne T x) s).already_marked = s.already_marked ∧
      (ds.foldl (stepOne T x) s).commits = s.commits ∧
      (ds.foldl (stepOne T x) s).db = s.db := by
  intro ds
  induction ds with
  | nil => intro s _ _; exact ⟨by simp, rfl, rfl, rfl⟩
  | cons d ds ih =>
    intro s hall hlt
    have hd : d ≤ TOLERANCE := hall d (List.mem_cons_self d ds)
    have hstep : stepOne T x s d =
        { s with frame_counts := fun j =>
            if j = x then s.frame_counts x + 1 else s.frame_counts j } := by
      rw [stepOne_def]
      have := processRegionGroupT_match_nocommit T [x] "2025-01-01" "09:00:00"
        "2025-01-01" s [d] 0 d (argminQ_single d) hd
        (by
          intro hcon
          have : T ≤ s.frame_counts x + 1 := by simpa using hcon.1
          simp only [List.length_cons] at hlt
          omega)
      simpa using this
    simp only [List.foldl_cons, hstep]
    have hre := ih { s with frame_counts := fun j =>
        if j = x then s.frame_counts x + 1 else s.frame_counts j }
      (fun e he => hall e (List.mem_cons_of_mem d he))
      (by simp only [List.length_cons] at hlt; simp; omega)
    simp only [List.length_cons]
    refine ⟨?_, hre.2.1, hre.2.2.1, hre.2.2.2⟩
    rw [hre.1]
    simp
    omega

/-- Matching frames whose count exactly reaches the threshold confirm:
the last frame fires the commit, marks the identity and logs exactly
one more commit. -/
theorem runOne_reach (T x : ℕ) :
    ∀ (ds : List ℚ) (s : GroupState), (∀ d ∈ ds, d ≤ TOLERANCE) →
      x ∉ s.already_marked →
      s.frame_counts x + ds.length = T → 1 ≤ ds.length →
      (ds.foldl (stepOne T x) s).frame_counts x = T ∧
      x ∈ (ds.foldl (stepOne T x) s).already_marked ∧
      (ds.foldl (stepOne T x) s).commits.length = s.commits.length + 1 := by
  intro ds
  induction ds with
  | nil => intro s _ _ _ h; exact absurd h (by simp)
  | cons d ds ih =>
    intro s hall hm hsum _
    have hd : d ≤ TOLERANCE := hall d (List.mem_cons_self d ds)
    cases ds with
    | nil =>
      have hc : s.frame_counts x + 1 = T := by simpa using hsum
      have hstep := processRegionGroupT_commit T [x] "2025-01-01" "09:00:00"
        "2025-01-01" s [d] 0 d (argminQ_single d) hd
        (by simp [hc]) (by simpa using hm)
      simp only [List.foldl_cons, List.foldl_nil, stepOne_def]
      rw [hstep]
      refine ⟨by simp [hc], ?_, by simp⟩
      simpa using mem_refresh_insert s.db x "09:00:00" (pct_group d) "2025-01-01"
    | cons d2 ds2 =>
      have hlt : s.frame_counts x + 1 < T := by
        simp only [List.length_cons] at hsum
        omega
      have hstep : stepOne T x s d =
          { s with frame_counts := fun j =>
              if j = x then s.frame_counts x + 1 else s.frame_counts j } := by
        rw [stepOne_def]
        have := processRegionGroupT_match_nocommit T [x] "2025-01-01" "09:00:00"
          "2025-01-01" s [d] 0 d (argminQ_single d) hd
          (by
            intro hcon
            have : T ≤ s.frame_counts x + 1 := by simpa using hcon.1
            omega)
        simpa using this
      simp only [List.foldl_cons, hstep]
      apply ih
      · exact fun e he => hall e (List.mem_cons_of_mem d he)
      · simpa using hm
      · simp only [List.length_cons] at hsum ⊢
        simp
        omega
      · simp

/-- C2: for threshold T, starting from counter 0, T consecutive matches
reach the threshold and fire the confirmation commit; T-1 matches
followed by one non-match do not confirm and leave the counter at T-2;
and the concrete trace of the spec example (TOLERANCE 0.4, threshold 3,
distances 0.3, 0.3, 0.5, 0.3, 0.3, 0.3) yields counter values
1, 2, 1, 2, 3 after the first five processed frames and exactly one
commit, fired at the fifth frame with confidence 70 derived from that
frame's distance 0.3. -/
theorem C2_confirmation_hysteresis :
    (∀ (T x : ℕ) (ds : List ℚ), 1 ≤ T → ds.length = T →
        (∀ d ∈ ds, d ≤ TOLERANCE) →
        (runOne T x ds).frame_counts x = T ∧
        x ∈ (runOne T x ds).already_marked ∧
        (runOne T x ds).commits.length = 1) ∧
    (∀ (T x : ℕ) (ds : List ℚ) (e : ℚ), ds.length = T - 1 →
        (∀ d ∈ ds, d ≤ TOLERANCE) → ¬ e ≤ TOLERANCE → 2 ≤ T →
        (runOne T x (ds ++ [e])).frame_counts x = T - 2 ∧
        (runOne T x (ds ++ [e])).commits = []) ∧
    ((∀ k ∈ [(1, 1), (2, 2), (3, 1), (4, 2), (5, 3)],
        (runOne 3 7 ([3/10, 3/10, 1/2, 3/10, 3/10, 3/10].take k.1)).frame_counts 7
          = k.2) ∧
      (runOne 3 7 ([3/10, 3/10, 1/2, 3/10, 3/10, 3/10].take 4)).commits = [] ∧
      (runOne 3 7 [3/10, 3/10, 1/2, 3/10, 3/10, 3/10]).commits = [(7, 70)] ∧
      pct_group (3/10) = 70) := by
  refine ⟨?_, ?_, ?_⟩
  · intro T x ds hT hlen hall
    have h := runOne_reach T x ds (initGroupState [] "2025-01-01") hall
      (by simp [initGroupState, refresh_present_list])
      (by simp [initGroupState, hlen]) (by omega)
    exact ⟨h.1, h.2.1, by simpa [initGroupState] using h.2.2⟩
  · intro T x ds e hlen hall he hT
    have hbelow := runOne_below T x ds (initGroupState [] "2025-01-01") hall
      (by simp [initGroupState, hlen]; omega)
    constructor
    · show (runOne T x (ds ++ [e])).frame_counts x = T - 2
      rw [runOne, List.foldl_append]
      simp only [List.foldl_cons, List.foldl_nil]
      rw [stepOne_nomatch T x _ e he]
      dsimp only
      rw [if_pos rfl, hbelow.1]
      simp [initGroupState]
      omega
    · show (runOne T x (ds ++ [e])).commits = []
      rw [runOne, List.foldl_append]
      simp only [List.foldl_cons, List.foldl_nil]
      rw [stepOne_nomatch T x _ e he]
      dsimp only
      rw [hbelow.2.2.1]
      simp [initGroupState]
  · exact ⟨by decide, by decide, by decide, by decide⟩

/-- Witness for C2 at threshold 3 with three matching frames at
distance 1/4, and at threshold 3 with two matches then one non-match. -/
theorem C2_confirmation_hysteresis_witness :
    ((runOne 3 9 [1/4, 1/4, 1/4]).frame_counts 9 = 3 ∧
      9 ∈ (runOne 3 9 [1/4, 1/4, 1/4]).already_marked ∧
      (runOne 3 9 [1/4, 1/4, 1/4]).commits.length = 1) ∧
    ((runOne 3 9 ([1/4, 1/4] ++ [1/2])).frame_counts 9 = 1 ∧
      (runOne 3 9 ([1/4, 1/4] ++ [1/2])).commits = []) :=
  ⟨C2_confirmation_hysteresis.1 3 9 [1/4, 1/4, 1/4] (by decide) (by decide)
      (by decide),
   C2_confirmation_hysteresis.2.1 3 9 [1/4, 1/4] (1/2) (by decide) (by decide)
      (by decide) (by decide)⟩

/-! ### Tolerance boundary and confidence formula -/

/-- C5: a detected region is classified a match iff its best distance is
at most TOLERANCE; the boundary is inclusive (distance exactly TOLERANCE
matches), distance 0 matches since TOLERANCE is nonnegative, and the
same test is computed in group, course and single mode. -/
theorem C5_tolerance_boundary :
    (∀ d : ℚ, (is_match_group d = true ↔ d ≤ TOLERANCE) ∧
      is_match_course d = is_match_group d ∧
      is_match_single d = is_match_group d) ∧
    is_match_group TOLERANCE = true ∧
    is_match_group 0 = true ∧
    (0 : ℚ) ≤ TOLERANCE := by
  refine ⟨fun d => ⟨is_match_group_iff d, rfl, rfl⟩, ?_, ?_, ?_⟩
  · decide
  · decide
  · decide

/-- Witness for C5 at the boundary distance itself and at 1/4. -/
theorem C5_tolerance_boundary_witness :
    (is_match_group (1/4) = true ↔ (1/4 : ℚ) ≤ TOLERANCE) ∧
    is_match_course (1/4) = is_match_group (1/4) ∧
    is_match_single (1/4) = is_match_group (1/4) ∧
    is_match_group TOLERANCE = true :=
  ⟨(C5_tolerance_boundary.1 (1/4)).1, (C5_tolerance_boundary.1 (1/4)).2.1,
   (C5_tolerance_boundary.1 (1/4)).2.2, C5_tolerance_boundary.2.1⟩

theorem clamp_mul_eq (y : ℚ) :
    max 0 (min 1 y) * 100 = min 100 (max 0 (y * 100)) := by
  rcases le_total y 0 with h | h
  · have h100 : y * 100 ≤ 0 := by linarith
    rw [min_eq_right (h.trans zero_le_one), max_eq_left h, zero_mul,
      max_eq_left h100, min_eq_right (by norm_num : (0:ℚ) ≤ 100)]
  · rcases le_total y 1 with h1 | h1
    · have h0 : (0:ℚ) ≤ y * 100 := by linarith
      have h100 : y * 100 ≤ 100 := by linarith
      rw [min_eq_right h1, max_eq_right h, max_eq_right h0, min_eq_right h100]
    · have h100 : (100:ℚ) ≤ y * 100 := by linarith
      have h0 : (0:ℚ) ≤ y * 100 := by linarith
      rw [min_eq_left h1, max_eq_right zero_le_one, one_mul, max_eq_right h0,
        min_eq_left h100]

/-- C9: the derived confidence equals (1 - distance) * 100 clamped to
[0, 100]; it is 100 at distance 0, 0 from distance 1 on, non-increasing
in the distance; all three modes compute the same formula, and the value
persisted by a group-mode commit and by a single-mode commit is that
formula of the committing frame's distance. -/
theorem C9_confidence_formula :
    (∀ d : ℚ, pct_group d = min 100 (max 0 ((1 - d) * 100)) ∧
      pct_course d = pct_group d ∧ pct_single d = pct_group d) ∧
    pct_group 0 = 100 ∧
    (∀ d : ℚ, 1 ≤ d → pct_group d = 0) ∧
    (∀ d e : ℚ, d ≤ e → pct_group e ≤ pct_group d) ∧
    (∀ (T : ℕ) (ids : List ℕ) (dt tm td : String) (s : GroupState)
        (dists : List ℚ) (bi : ℕ) (bd : ℚ),
        argminQ dists = some (bi, bd) → bd ≤ TOLERANCE →
        T ≤ s.frame_counts (ids.getD bi 0) + 1 →
        ids.getD bi 0 ∉ s.already_marked →
        (processRegionGroupT T ids dt tm td s dists).db =
          insert_or_ignore s.db ⟨ids.getD bi 0, dt, tm, pct_group bd⟩ ∧
        (processRegionGroupT T ids dt tm td s dists).commits =
          s.commits ++ [(ids.getD bi 0, pct_group bd)]) ∧
    (∀ (db : List AttendanceRecord) (sid : ℕ) (today tm : String) (d : ℚ),
        hasRecord db sid today = false →
        (mark_attendance_single db sid today tm (pct_single d)).2 =
          db ++ [⟨sid, today, tm, pct_single d⟩]) := by
  refine ⟨?_, by decide, ?_, ?_, ?_, ?_⟩
  · intro d
    refine ⟨?_, rfl, rfl⟩
    rw [pct_group, qmax_eq_max, qmin_eq_min, clamp_mul_eq]
  · intro d hd
    rw [pct_group, qmax_eq_max, qmin_eq_min,
      min_eq_right (by linarith : 1 - d ≤ 1),
      max_eq_left (by linarith : 1 - d ≤ 0), zero_mul]
  · intro d e hde
    rw [pct_group, pct_group, qmax_eq_max, qmax_eq_max, qmin_eq_min, qmin_eq_min]
    have h1 : 1 - e ≤ 1 - d := by linarith
    exact mul_le_mul_of_nonneg_right
      (max_le_max le_rfl (min_le_min le_rfl h1)) (by norm_num)
  · intro T ids dt tm td s dists bi bd hA hd hT hm
    rw [processRegionGroupT_commit T ids dt tm td s dists bi bd hA hd hT hm]
    exact ⟨rfl, rfl⟩
  · intro db sid today tm d h
    simp [mark_attendance_single, insert_or_ignore, h]

/-- Witness for C9: the clamp identity at 3/10, saturation at 2, and the
two persistence conjuncts at a concrete commit. -/
theorem C9_confidence_formula_witness :
    pct_group (3/10) = min 100 (max 0 ((1 - 3/10) * 100)) ∧
    pct_group 2 = 0 ∧
    pct_group (1/2) ≤ pct_group (1/4) ∧
    (processRegionGroupT 1 [5] "2025-01-01" "09:00:00" "2025-01-01"
        (initGroupState [] "2025-01-01") [1/4]).db =
      insert_or_ignore [] ⟨5, "2025-01-01", "09:00:00", pct_group (1/4)⟩ ∧
    (mark_attendance_single [] 6 "2025-01-01" "09:00:00" (pct_single (1/4))).2 =
      [⟨6, "2025-01-01", "09:00:00", pct_single (1/4)⟩] :=
  ⟨(C9_confidence_formula.1 (3/10)).1,
   C9_confidence_formula.2.2.1 2 (by decide),
   C9_confidence_formula.2.2.2.1 (1/4) (1/2) (by decide),
   (C9_confidence_formula.2.2.2.2.1 1 [5] "2025-01-01" "09:00:00" "2025-01-01"
      (initGroupState [] "2025-01-01") [1/4] 0 (1/4) rfl (by decide)
      (by decide) (by simp [initGroupState, refresh_present_list])).1,
   C9_confidence_formula.2.2.2.2.2 [] 6 "2025-01-01" "09:00:00" (1/4) (by decide)⟩

/-! ### Ledger commit outcomes -/

/-- C8: committing an absent (identity, today) pair returns created and
appends a row carrying time-of-day and confidence; committing a present
pair returns alreadyMarked and leaves the ledger, hence the existing
row, untouched; the group-mode INSERT OR IGNORE on a present pair is
likewise a no-op.  Both outcomes are ordinary return values, not
errors. -/
theorem C8_commit_outcomes :
    ∀ (db : List AttendanceRecord) (sid : ℕ) (today tm : String) (p : ℚ),
      (hasRecord db sid today = false →
        commit_outcome (mark_attendance_single db sid today tm p).1 =
          CommitOutcome.created ∧
        (mark_attendance_single db sid today tm p).2 =
          db ++ [⟨sid, today, tm, p⟩]) ∧
      (hasRecord db sid today = true →
        commit_outcome (mark_attendance_single db sid today tm p).1 =
          CommitOutcome.alreadyMarked ∧
        (mark_attendance_single db sid today tm p).2 = db) ∧
      (hasRecord db sid today = true →
        insert_or_ignore db ⟨sid, today, tm, p⟩ = db) := by
  intro db sid today tm p
  refine ⟨fun h => ?_, fun h => ?_, fun h => ?_⟩
  · constructor
    · simp [mark_attendance_single, commit_outcome, h]
    · simp [mark_attendance_single, insert_or_ignore, h]
  · constructor
    · simp [mark_attendance_single, commit_outcome, h]
    · simp [mark_attendance_single, h]
  · simp [insert_or_ignore, h]

/-- Witness for C8: a fresh pair is created, a present pair is reported
alreadyMarked with the ledger unchanged. -/
theorem C8_commit_outcomes_witness :
    (commit_outcome (mark_attendance_single [⟨3, "2025-01-02", "08:00:00", 80⟩]
        4 "2025-01-02" "09:00:00" 70).1 = CommitOutcome.created ∧
      (mark_attendance_single [⟨3, "2025-01-02", "08:00:00", 80⟩]
        4 "2025-01-02" "09:00:00" 70).2 =
        [⟨3, "2025-01-02", "08:00:00", 80⟩, ⟨4, "2025-01-02", "09:00:00", 70⟩]) ∧
    (commit_outcome (mark_attendance_single [⟨3, "2025-01-02", "08:00:00", 80⟩]
        3 "2025-01-02" "09:00:00" 70).1 = CommitOutcome.alreadyMarked ∧
      (mark_attendance_single [⟨3, "2025-01-02", "08:00:00", 80⟩]
        3 "2025-01-02" "09:00:00" 70).2 = [⟨3, "2025-01-02", "08:00:00", 80⟩]) :=
  ⟨(C8_commit_outcomes [⟨3, "2025-01-02", "08:00:00", 80⟩]
      4 "2025-01-02" "09:00:00" 70).1 (by decide),
   (C8_commit_outcomes [⟨3, "2025-01-02", "08:00:00", 80⟩]
      3 "2025-01-02" "09:00:00" 70).2.1 (by decide)⟩

/-! ### Course switch clears the hysteresis state -/

/-- C4: loading the candidates of a (nonempty) course selection resets
every in-flight confirmation counter to zero, rebuilds the session's
already-confirmed-today set from the database alone (discarding the
previous tag's set), and replaces the candidate ids with the new tag's;
hence no counter accumulated under the previous tag can contribute to a
confirmation under the new one. -/
theorem C4_course_switch_clears :
    ∀ {E : Type} (cache : ℕ → Option E) (fsExists : String → Bool)
      (fe : String → Option (List E)) (students : List Student)
      (today course : String) (s : CourseState), course ≠ "" →
      (∀ sid, (load_course_faces cache fsExists fe students today course
          s).frame_counts_c sid = 0) ∧
      (load_course_faces cache fsExists fe students today course
          s).course_marked =
        refresh_present_list_course students s.db today course ∧
      (load_course_faces cache fsExists fe students today course
          s).known_ids_c =
        (load_course_face_encodings cache fsExists fe students course).2.1 := by
  intro E cache fsExists fe students today course s hc
  unfold load_course_faces
  rw [if_neg hc]
  exact ⟨fun sid => rfl, rfl, rfl⟩

/-- Witness for C4: a session with an in-flight counter of 5 for id 1
and a stale marked set is fully cleared by loading course CS. -/
theorem C4_course_switch_clears_witness :
    (load_course_faces (fun _ => none) (fun _ => false)
        (fun _ => (none : Option (List Unit))) [] "2025-01-01" "CS"
        ⟨[1], fun _ => 5, [2], [], []⟩).frame_counts_c 1 = 0 ∧
    (load_course_faces (fun _ => none) (fun _ => false)
        (fun _ => (none : Option (List Unit))) [] "2025-01-01" "CS"
        ⟨[1], fun _ => 5, [2], [], []⟩).course_marked =
      refresh_present_list_course [] [] "2025-01-01" "CS" :=
  ⟨(C4_course_switch_clears (fun _ => none) (fun _ => false)
      (fun _ => (none : Option (List Unit))) [] "2025-01-01" "CS"
      ⟨[1], fun _ => 5, [2], [], []⟩ (by decide)).1 1,
   (C4_course_switch_clears (fun _ => none) (fun _ => false)
      (fun _ => (none : Option (List Unit))) [] "2025-01-01" "CS"
      ⟨[1], fun _ => 5, [2], [], []⟩ (by decide)).2.1⟩

/-! ### Confirmed identities: one commit per session (group), repeats in
single mode when the ledger already holds the row -/

/-- Invariant carried along a group session for a fixed identity sid:
the marked set mirrors the db rows of the session's day, no commit has
been logged while sid is unmarked, and at most one commit has been
logged overall. -/
def GroupInv (td : String) (sid : ℕ) (s : GroupState) : Prop :=
  s.already_marked = refresh_present_list s.db td ∧
  (sid ∉ s.already_marked → countFor sid s.commits = 0) ∧
  countFor sid s.commits ≤ 1

theorem groupInv_region (T : ℕ) (ids : List ℕ) (tm td : String) (sid : ℕ)
    (s : GroupState) (dists : List ℚ) (h : GroupInv td sid s) :
    GroupInv td sid (processRegionGroupT T ids td tm td s dists) := by
  cases hA : argminQ dists with
  | none => rw [processRegionGroupT_none _ _ _ _ _ _ _ hA]; exact h
  | some p =>
    obtain ⟨bi, bd⟩ := p
    by_cases hd : bd ≤ TOLERANCE
    · by_cases hcond :
        T ≤ s.frame_counts (ids.getD bi 0) + 1 ∧ ids.getD bi 0 ∉ s.already_marked
      · rw [processRegionGroupT_commit _ _ _ _ _ _ _ _ _ hA hd hcond.1 hcond.2]
        refine ⟨rfl, ?_, ?_⟩
        · intro hnotin
          by_cases hss : ids.getD bi 0 = sid
          · exfalso
            apply hnotin
            show sid ∈ refresh_present_list
              (insert_or_ignore s.db ⟨ids.getD bi 0, td, tm, pct_group bd⟩) td
            rw [hss]
            exact mem_refresh_insert s.db sid tm (pct_group bd) td
          · show countFor sid (s.commits ++ [(ids.getD bi 0, pct_group bd)]) = 0
            rw [countFor_append_single, if_neg hss]
            have hout : sid ∉ s.already_marked := by
              intro hmem
              apply hnotin
              show sid ∈ refresh_present_list
                (insert_or_ignore s.db ⟨ids.getD bi 0, td, tm, pct_group bd⟩) td
              rw [h.1] at hmem
              exact refresh_mono_insert s.db _ td sid hmem
            rw [h.2.1 hout]
        · show countFor sid (s.commits ++ [(ids.getD bi 0, pct_group bd)]) ≤ 1
          rw [countFor_append_single]
          by_cases hss : ids.getD bi 0 = sid
          · rw [if_pos hss, h.2.1 (hss ▸ hcond.2)]
          · rw [if_neg hss]
            simpa using h.2.2
      · rw [processRegionGroupT_match_nocommit _ _ _ _ _ _ _ _ _ hA hd hcond]
        exact h
    · rw [processRegionGroupT_nomatch _ _ _ _ _ _ _ _ _ hA hd]
      exact h

theorem groupInv_frame (T : ℕ) (ids : List ℕ) (tm td : String) (sid : ℕ) :
    ∀ (regions : List (List ℚ)) (s : GroupState), GroupInv td sid s →
      GroupInv td sid (processFrameGroupT T ids td tm td s regions) := by
  intro regions
  induction regions with
  | nil => intro s h; exact h
  | cons r rs ih =>
    intro s h
    exact ih (processRegionGroupT T ids td tm td s r)
      (groupInv_region T ids tm td sid s r h)

theorem groupInv_run (T : ℕ) (ids : List ℕ) (tm td : String) (sid : ℕ) :
    ∀ (frames : List (List (List ℚ))) (s : GroupState), GroupInv td sid s →
      GroupInv td sid (runGroupT T ids td tm td s frames) := by
  intro frames
  induction frames with
  | nil => intro s h; exact h
  | cons f fs ih =>
    intro s h
    exact ih (processFrameGroupT T ids td tm td s f)
      (groupInv_frame T ids tm td sid f s h)

theorem processRegionCourse_none (dt tm : String) (s : CourseState)
    (dists : List ℚ) (hA : argminQ dists = none) :
    processRegionCourse dt tm s dists = s := by
  unfold processRegionCourse
  rw [hA]

theorem processRegionCourse_match_nocommit (dt tm : String) (s : CourseState)
    (dists : List ℚ) (bi : ℕ) (bd : ℚ) (hA : argminQ dists = some (bi, bd))
    (hd : bd ≤ TOLERANCE)
    (hno : ¬(GROUP_REQ_CONSEC ≤ s.frame_counts_c (s.known_ids_c.getD bi 0) + 1 ∧
        s.known_ids_c.getD bi 0 ∉ s.course_marked)) :
    processRegionCourse dt tm s dists =
      { s with frame_counts_c := fun j =>
          if j = s.known_ids_c.getD bi 0 then
            s.frame_counts_c (s.known_ids_c.getD bi 0) + 1
          else s.frame_counts_c j } := by
  unfold processRegionCourse
  rw [hA]
  dsimp only
  rw [if_pos ((is_match_course_iff bd).mpr hd)]
  rw [if_neg hno]

theorem processRegionCourse_commit (dt tm : String) (s : CourseState)
    (dists : List ℚ) (bi : ℕ) (bd : ℚ) (hA : argminQ dists = some (bi, bd))
    (hd : bd ≤ TOLERANCE)
    (hT : GROUP_REQ_CONSEC ≤ s.frame_counts_c (s.known_ids_c.getD bi 0) + 1)
    (hm : s.known_ids_c.getD bi 0 ∉ s.course_marked) :
    processRegionCourse dt tm s dists =
      { known_ids_c := s.known_ids_c
        frame_counts_c := fun j =>
          if j = s.known_ids_c.getD bi 0 then
            s.frame_counts_c (s.known_ids_c.getD bi 0) + 1
          else s.frame_counts_c j
        course_marked := s.known_ids_c.getD bi 0 :: s.course_marked
        db := insert_or_ignore s.db
          ⟨s.known_ids_c.getD bi 0, dt, tm, pct_course bd⟩
        commits := s.commits ++ [(s.known_ids_c.getD bi 0, pct_course bd)] } := by
  unfold processRegionCourse
  rw [hA]
  dsimp only
  rw [if_pos ((is_match_course_iff bd).mpr hd)]
  rw [if_pos ⟨hT, hm⟩]

theorem processRegionCourse_nomatch (dt tm : String) (s : CourseState)
    (dists : List ℚ) (bi : ℕ) (bd : ℚ) (hA : argminQ dists = some (bi, bd))
    (hd : ¬ bd ≤ TOLERANCE) :
    processRegionCourse dt tm s dists =
      { s with frame_counts_c := fun j =>
          if j = s.known_ids_c.getD bi 0 then
            s.frame_counts_c (s.known_ids_c.getD bi 0) - 1
          else s.frame_counts_c j } := by
  unfold processRegionCourse
  rw [hA]
  dsimp only
  rw [if_neg (fun h => hd ((is_match_course_iff bd).mp h))]

/-- Invariant carried along a course session for a fixed identity sid:
no commit has been logged while sid is outside course_marked, and at
most one commit has been logged overall. -/
def CourseInv (sid : ℕ) (s : CourseState) : Prop :=
  (sid ∉ s.course_marked → countFor sid s.commits = 0) ∧
  countFor sid s.commits ≤ 1

theorem courseInv_region (dt tm : String) (sid : ℕ) (s : CourseState)
    (dists : List ℚ) (h : CourseInv sid s) :
    CourseInv sid (processRegionCourse dt tm s dists) := by
  cases hA : argminQ dists with
  | none => rw [processRegionCourse_none _ _ _ _ hA]; exact h
  | some p =>
    obtain ⟨bi, bd⟩ := p
    by_cases hd : bd ≤ TOLERANCE
    · by_cases hcond :
        GROUP_REQ_CONSEC ≤ s.frame_counts_c (s.known_ids_c.getD bi 0) + 1 ∧
          s.known_ids_c.getD bi 0 ∉ s.course_marked
      · rw [processRegionCourse_commit _ _ _ _ _ _ hA hd hcond.1 hcond.2]
        constructor
        · intro hnotin
          by_cases hss : s.known_ids_c.getD bi 0 = sid
          · exfalso
            apply hnotin
            show sid ∈ s.known_ids_c.getD bi 0 :: s.course_marked
            rw [hss]
            exact List.mem_cons_self _ _
          · show countFor sid
              (s.commits ++ [(s.known_ids_c.getD bi 0, pct_course bd)]) = 0
            rw [countFor_append_single, if_neg hss]
            have hout : sid ∉ s.course_marked := fun hmem =>
              hnotin (List.mem_cons_of_mem _ hmem)
            rw [h.1 hout]
        · show countFor sid
            (s.commits ++ [(s.known_ids_c.getD bi 0, pct_course bd)]) ≤ 1
          rw [countFor_append_single]
          by_cases hss : s.known_ids_c.getD bi 0 = sid
          · rw [if_pos hss, h.1 (hss ▸ hcond.2)]
          · rw [if_neg hss]
            simpa using h.2
      · rw [processRegionCourse_match_nocommit _ _ _ _ _ _ hA hd hcond]
        exact h
    · rw [processRegionCourse_nomatch _ _ _ _ _ _ hA hd]
      exact h

theorem courseInv_frame (dt tm : String) (sid : ℕ) :
    ∀ (regions : List (List ℚ)) (s : CourseState), CourseInv sid s →
      CourseInv sid (processFrameCourse dt tm s regions) := by
  intro regions
  induction regions with
  | nil => intro s h; exact h
  | cons r rs ih =>
    intro s h
    exact ih (processRegionCourse dt tm s r) (courseInv_region dt tm sid s r h)

theorem courseInv_run (dt tm : String) (sid : ℕ) :
    ∀ (frames : List (List (List ℚ))) (s : CourseState), CourseInv sid s →
      CourseInv sid (runCourse dt tm s frames) := by
  intro frames
  induction frames with
  | nil => intro s h; exact h
  | cons f fs ih =>
    intro s h
    exact ih (processFrameCourse dt tm s f) (courseInv_frame dt tm sid f s h)

/-- Single-mode step while the session is not running: nothing happens. -/
theorem single_step_idle (sid : ℕ) (today tm : String) (s : SingleState)
    (dq : Option ℚ) (h : s.running_match = false) :
    loop_frame_single_step sid today tm s dq = s := by
  unfold loop_frame_single_step
  rw [h, Bool.and_false]
  simp

/-- Single-mode step on the confirming frame when the ledger has no row
yet: the row is inserted and the session stops. -/
theorem single_step_success (sid : ℕ) (today tm : String) (s : SingleState)
    (d : ℚ) (hrun : s.running_match = true) (henc : s.has_encoding = true)
    (hd : d ≤ TOLERANCE) (hc : REQ_CONSEC ≤ s.consecutive + 1)
    (hdb : hasRecord s.db sid today = false) :
    (loop_frame_single_step sid today tm s (some d)).running_match = false ∧
    (loop_frame_single_step sid today tm s (some d)).has_encoding = false ∧
    (loop_frame_single_step sid today tm s (some d)).attempts = s.attempts + 1 ∧
    (loop_frame_single_step sid today tm s (some d)).db =
      s.db ++ [⟨sid, today, tm, pct_single d⟩] := by
  have hstep : loop_frame_single_step sid today tm s (some d) =
      { consecutive := s.consecutive + 1, running_match := false
        has_encoding := false, db := s.db ++ [⟨sid, today, tm, pct_single d⟩]
        attempts := s.attempts + 1 } := by
    unfold loop_frame_single_step
    rw [henc, hrun]
    simp only [Bool.and_self, if_true]
    rw [if_pos ((is_match_single_iff d).mpr hd)]
    rw [if_pos hc]
    simp only [mark_attendance_single, hdb, Bool.false_eq_true, if_false,
      insert_or_ignore, if_true]
  rw [hstep]
  exact ⟨rfl, rfl, rfl, rfl⟩

/-- Single-mode step on any detected-face frame whose counter update
leaves the counter at or above the threshold while the ledger already
holds today's row: mark_attendance_single is called again (one more
attempt), reports alreadyMarked, and the session keeps running.  The
frame need not match: the threshold test at line 1021 also runs after a
decrement. -/
theorem single_step_already (sid : ℕ) (today tm : String) (s : SingleState)
    (d : ℚ) (hrun : s.running_match = true) (henc : s.has_encoding = true)
    (hdb : hasRecord s.db sid today = true)
    (hc : REQ_CONSEC ≤
      if d ≤ TOLERANCE then s.consecutive + 1 else s.consecutive - 1) :
    (loop_frame_single_step sid today tm s (some d)).attempts = s.attempts + 1 ∧
    (loop_frame_single_step sid today tm s (some d)).running_match = true ∧
    (loop_frame_single_step sid today tm s (some d)).has_encoding = true ∧
    (loop_frame_single_step sid today tm s (some d)).db = s.db ∧
    (loop_frame_single_step sid today tm s (some d)).consecutive =
      (if d ≤ TOLERANCE then s.consecutive + 1 else s.consecutive - 1) := by
  by_cases hd : d ≤ TOLERANCE
  · rw [if_pos hd] at hc ⊢
    have hstep : loop_frame_single_step sid today tm s (some d) =
        { consecutive := s.consecutive + 1, running_match := s.running_match
          has_encoding := s.has_encoding, db := s.db
          attempts := s.attempts + 1 } := by
      unfold loop_frame_single_step
      rw [henc, hrun]
      simp only [Bool.and_self, if_true]
      rw [if_pos ((is_match_single_iff d).mpr hd)]
      rw [if_pos hc]
      simp only [mark_attendance_single, hdb, if_true]
      rfl
    rw [hstep]
    exact ⟨rfl, hrun, henc, rfl, rfl⟩
  · rw [if_neg hd] at hc ⊢
    have hstep : loop_frame_single_step sid today tm s (some d) =
        { consecutive := s.consecutive - 1, running_match := s.running_match
          has_encoding := s.has_encoding, db := s.db
          attempts := s.attempts + 1 } := by
      unfold loop_frame_single_step
      rw [henc, hrun]
      simp only [Bool.and_self, if_true]
      rw [if_neg (fun h => hd ((is_match_single_iff d).mp h))]
      rw [if_pos hc]
      simp only [mark_attendance_single, hdb, if_true]
      rfl
    rw [hstep]
    exact ⟨rfl, hrun, henc, rfl, rfl⟩

/-- Counterexample to C3 as stated: in single-identity mode, with the
ledger already holding today's row for identity 7 (alreadyMarked), six
matching frames at distance 0.3 trigger two commit attempts, not
exactly one, and the identity is not excluded from further attempts
(the session is still running and the counter kept counting). -/
theorem C3_single_repeat_counterexample :
    (runSingle 7 "2025-01-01" "09:00:00"
        ⟨0, true, true, [⟨7, "2025-01-01", "08:00:00", 50⟩], 0⟩
        (List.replicate 6 (some (3/10)))).attempts = 2 ∧
    (runSingle 7 "2025-01-01" "09:00:00"
        ⟨0, true, true, [⟨7, "2025-01-01", "08:00:00", 50⟩], 0⟩
        (List.replicate 6 (some (3/10)))).running_match = true ∧
    (runSingle 7 "2025-01-01" "09:00:00"
        ⟨0, true, true, [⟨7, "2025-01-01", "08:00:00", 50⟩], 0⟩
        (List.replicate 6 (some (3/10)))).consecutive = 6 := by
  refine ⟨by decide, by decide, by decide⟩

/-- C3 as amended: (i) in a group session, over any frame sequence of
one session-day at most one ledger commit fires per identity — the
marked set rebuilt from the db suppresses re-commits; (ii) a marked
identity is not excluded from counting in the group loop: its counter
still increments positively on later matching frames, with no further
commit; (iii) likewise in a course session, over any frame sequence at
most one commit fires per identity — here via the directly-updated
course_marked set — and (iv) a course-marked identity keeps being
counted with no further commit; (v) in single mode a stopped session
ignores frames and (vi) a successful commit stops the session; (vii)
but when the ledger reports the identity as already marked, the commit
attempt is repeated on every further detected-face frame whose counter
update (increment on a match, floored decrement otherwise) leaves the
counter at or above the threshold. -/
theorem C3_confirm_once_amended :
    (∀ (T : ℕ) (ids : List ℕ) (tm td : String)
        (frames : List (List (List ℚ))) (db0 : List AttendanceRecord) (sid : ℕ),
        countFor sid
          (runGroupT T ids td tm td (initGroupState db0 td) frames).commits ≤ 1) ∧
    (∀ (T : ℕ) (ids : List ℕ) (dt tm td : String) (s : GroupState)
        (dists : List ℚ) (bi : ℕ) (bd : ℚ),
        argminQ dists = some (bi, bd) → bd ≤ TOLERANCE →
        ids.getD bi 0 ∈ s.already_marked →
        (processRegionGroupT T ids dt tm td s dists).frame_counts
            (ids.getD bi 0) = s.frame_counts (ids.getD bi 0) + 1 ∧
        (processRegionGroupT T ids dt tm td s dists).commits = s.commits) ∧
    (∀ (dt tm : String) (frames : List (List (List ℚ))) (s : CourseState)
        (sid : ℕ), s.commits = [] →
        countFor sid (runCourse dt tm s frames).commits ≤ 1) ∧
    (∀ (dt tm : String) (s : CourseState) (dists : List ℚ) (bi : ℕ) (bd : ℚ),
        argminQ dists = some (bi, bd) → bd ≤ TOLERANCE →
        s.known_ids_c.getD bi 0 ∈ s.course_marked →
        (processRegionCourse dt tm s dists).frame_counts_c
            (s.known_ids_c.getD bi 0) =
          s.frame_counts_c (s.known_ids_c.getD bi 0) + 1 ∧
        (processRegionCourse dt tm s dists).commits = s.commits) ∧
    (∀ (sid : ℕ) (today tm : String) (s : SingleState) (dq : Option ℚ),
        s.running_match = false → loop_frame_single_step sid today tm s dq = s) ∧
    (∀ (sid : ℕ) (today tm : String) (s : SingleState) (d : ℚ),
        s.running_match = true → s.has_encoding = true → d ≤ TOLERANCE →
        REQ_CONSEC ≤ s.consecutive + 1 → hasRecord s.db sid today = false →
        (loop_frame_single_step sid today tm s (some d)).running_match = false ∧
        (loop_frame_single_step sid today tm s (some d)).attempts =
          s.attempts + 1) ∧
    (∀ (sid : ℕ) (today tm : String) (s : SingleState) (d : ℚ),
        s.running_match = true → s.has_encoding = true →
        hasRecord s.db sid today = true →
        REQ_CONSEC ≤
          (if d ≤ TOLERANCE then s.consecutive + 1 else s.consecutive - 1) →
        (loop_frame_single_step sid today tm s (some d)).attempts =
          s.attempts + 1 ∧
        (loop_frame_single_step sid today tm s (some d)).running_match = true ∧
        (loop_frame_single_step sid today tm s (some d)).consecutive =
          (if d ≤ TOLERANCE then s.consecutive + 1 else s.consecutive - 1)) := by
  refine ⟨?_, ?_, ?_, ?_, ?_, ?_, ?_⟩
  · intro T ids tm td frames db0 sid
    have h := groupInv_run T ids tm td sid frames (initGroupState db0 td)
      ⟨rfl, fun _ => rfl, by simp [countFor, initGroupState]⟩
    exact h.2.2
  · intro T ids dt tm td s dists bi bd hA hd hmem
    rw [processRegionGroupT_match_nocommit _ _ _ _ _ _ _ _ _ hA hd
      (fun hc => hc.2 hmem)]
    exact ⟨by simp, rfl⟩
  · intro dt tm frames s sid hcs
    have h := courseInv_run dt tm sid frames s
      ⟨fun _ => by rw [hcs]; rfl, by rw [hcs]; exact Nat.zero_le 1⟩
    exact h.2
  · intro dt tm s dists bi bd hA hd hmem
    rw [processRegionCourse_match_nocommit _ _ _ _ _ _ hA hd
      (fun hc => hc.2 hmem)]
    exact ⟨by simp, rfl⟩
  · intro sid today tm s dq h
    exact single_step_idle sid today tm s dq h
  · intro sid today tm s d hrun henc hd hc hdb
    have h := single_step_success sid today tm s d hrun henc hd hc hdb
    exact ⟨h.1, h.2.2.1⟩
  · intro sid today tm s d hrun henc hdb hc
    have h := single_step_already sid today tm s d hrun henc hdb hc
    exact ⟨h.1, h.2.1, h.2.2.2.2⟩

/-- Witness for the amended C3 at concrete sessions: a one-candidate
group run and a one-candidate course run each bounded by one commit, a
marked identity still being counted in both multi-face loops, an idle
single session, a successful single commit, and a repeated attempt on
an already-marked identity at a matching frame and at a non-matching
frame that leaves the counter at the threshold. -/
theorem C3_confirm_once_amended_witness :
    countFor 1 (runGroupT 3 [1] "2025-01-01" "09:00:00" "2025-01-01"
      (initGroupState [] "2025-01-01")
      [[[1/4]], [[1/4]], [[1/4]], [[1/4]]]).commits ≤ 1 ∧
    (processRegionGroupT 3 [1] "2025-01-01" "09:00:00" "2025-01-01"
        ⟨fun _ => 3, [1], [⟨1, "2025-01-01", "08:00:00", 60⟩], []⟩
        [1/4]).frame_counts 1 = 4 ∧
    countFor 1 (runCourse "2025-01-01" "09:00:00"
      ⟨[1], fun _ => 0, [], [], []⟩
      [[[1/4]], [[1/4]], [[1/4]], [[1/4]]]).commits ≤ 1 ∧
    (processRegionCourse "2025-01-01" "09:00:00"
        ⟨[1], fun _ => 3, [1], [], []⟩ [1/4]).frame_counts_c 1 = 4 ∧
    loop_frame_single_step 7 "2025-01-01" "09:00:00"
        ⟨2, false, true, [], 0⟩ (some (1/4)) = ⟨2, false, true, [], 0⟩ ∧
    (loop_frame_single_step 7 "2025-01-01" "09:00:00"
        ⟨4, true, true, [], 0⟩ (some (1/4))).running_match = false ∧
    (loop_frame_single_step 7 "2025-01-01" "09:00:00"
        ⟨4, true, true, [⟨7, "2025-01-01", "08:00:00", 50⟩], 3⟩
        (some (1/4))).attempts = 4 ∧
    (loop_frame_single_step 7 "2025-01-01" "09:00:00"
        ⟨6, true, true, [⟨7, "2025-01-01", "08:00:00", 50⟩], 3⟩
        (some (1/2))).attempts = 4 :=
  ⟨C3_confirm_once_amended.1 3 [1] "09:00:00" "2025-01-01"
      [[[1/4]], [[1/4]], [[1/4]], [[1/4]]] [] 1,
   (C3_confirm_once_amended.2.1 3 [1] "2025-01-01" "09:00:00" "2025-01-01"
      ⟨fun _ => 3, [1], [⟨1, "2025-01-01", "08:00:00", 60⟩], []⟩
      [1/4] 0 (1/4) rfl (by decide) (by decide)).1,
   C3_confirm_once_amended.2.2.1 "2025-01-01" "09:00:00"
      [[[1/4]], [[1/4]], [[1/4]], [[1/4]]] ⟨[1], fun _ => 0, [], [], []⟩ 1 rfl,
   (C3_confirm_once_amended.2.2.2.1 "2025-01-01" "09:00:00"
      ⟨[1], fun _ => 3, [1], [], []⟩ [1/4] 0 (1/4) rfl (by decide)
      (by decide)).1,
   C3_confirm_once_amended.2.2.2.2.1 7 "2025-01-01" "09:00:00"
      ⟨2, false, true, [], 0⟩ (some (1/4)) rfl,
   (C3_confirm_once_amended.2.2.2.2.2.1 7 "2025-01-01" "09:00:00"
      ⟨4, true, true, [], 0⟩ (1/4) rfl rfl (by decide) (by decide)
      (by decide)).1,
   (C3_confirm_once_amended.2.2.2.2.2.2 7 "2025-01-01" "09:00:00"
      ⟨4, true, true, [⟨7, "2025-01-01", "08:00:00", 50⟩], 3⟩ (1/4)
      rfl rfl (by decide) (by decide)).1,
   (C3_confirm_once_amended.2.2.2.2.2.2 7 "2025-01-01" "09:00:00"
      ⟨6, true, true, [⟨7, "2025-01-01", "08:00:00", 50⟩], 3⟩ (1/2)
      rfl rfl (by decide) (by decide)).1⟩

/-! ### Frame locality: only best-match identities are touched -/

theorem groupRegion_other_counts (T : ℕ) (ids : List ℕ) (dt tm td : String)
    (s : GroupState) (dists : List ℚ) (sid : ℕ)
    (h : bestSid ids dists ≠ some sid) :
    (processRegionGroupT T ids dt tm td s dists).frame_counts sid =
      s.frame_counts sid := by
  unfold processRegionGroupT
  cases hA : argminQ dists with
  | none => rfl
  | some p =>
    obtain ⟨bi, bd⟩ := p
    have hne : ids.getD bi 0 ≠ sid := by
      intro he
      exact h (by rw [bestSid, hA]; simpa using he)
    dsimp only
    split
    · split
      · dsimp only
        exact if_neg fun he => hne he.symm
      · dsimp only
        exact if_neg fun he => hne he.symm
    · dsimp only
      exact if_neg fun he => hne he.symm

theorem courseRegion_other_counts (dt tm : String) (s : CourseState)
    (dists : List ℚ) (sid : ℕ)
    (h : bestSid s.known_ids_c dists ≠ some sid) :
    (processRegionCourse dt tm s dists).frame_counts_c sid =
      s.frame_counts_c sid := by
  unfold processRegionCourse
  cases hA : argminQ dists with
  | none => rfl
  | some p =>
    obtain ⟨bi, bd⟩ := p
    have hne : s.known_ids_c.getD bi 0 ≠ sid := by
      intro he
      exact h (by rw [bestSid, hA]; simpa using he)
    dsimp only
    split
    · split
      · dsimp only
        exact if_neg fun he => hne he.symm
      · dsimp only
        exact if_neg fun he => hne he.symm
    · dsimp only
      exact if_neg fun he => hne he.symm

/-- The course region body does not change the loaded candidate list. -/
theorem courseRegion_ids (dt tm : String) (s : CourseState) (dists : List ℚ) :
    (processRegionCourse dt tm s dists).known_ids_c = s.known_ids_c := by
  unfold processRegionCourse
  cases hA : argminQ dists with
  | none => rfl
  | some p =>
    obtain ⟨bi, bd⟩ := p
    dsimp only
    split
    · split
      · rfl
      · rfl
    · rfl

theorem groupFrame_other_counts (T : ℕ) (ids : List ℕ) (dt tm td : String)
    (sid : ℕ) :
    ∀ (regions : List (List ℚ)) (s : GroupState),
      (∀ r ∈ regions, bestSid ids r ≠ some sid) →
      (processFrameGroupT T ids dt tm td s regions).frame_counts sid =
        s.frame_counts sid := by
  intro regions
  induction regions with
  | nil => intro s _; rfl
  | cons r rs ih =>
    intro s hall
    have h1 := groupRegion_other_counts T ids dt tm td s r sid
      (hall r (List.mem_cons_self r rs))
    have h2 := ih (processRegionGroupT T ids dt tm td s r)
      (fun q hq => hall q (List.mem_cons_of_mem r hq))
    exact h2.trans h1

theorem courseFrame_other_counts (dt tm : String) (sid : ℕ) :
    ∀ (regions : List (List ℚ)) (s : CourseState),
      (∀ r ∈ regions, bestSid s.known_ids_c r ≠ some sid) →
      (processFrameCourse dt tm s regions).frame_counts_c sid =
        s.frame_counts_c sid := by
  intro regions
  induction regions with
  | nil => intro s _; rfl
  | cons r rs ih =>
    intro s hall
    have h1 := courseRegion_other_counts dt tm s r sid
      (hall r (List.mem_cons_self r rs))
    have h2 := ih (processRegionCourse dt tm s r)
      (fun q hq => by
        rw [courseRegion_ids]
        exact hall q (List.mem_cons_of_mem r hq))
    exact h2.trans h1

/-- C10: in the multi-face modes a processed frame touches only the
counters of identities that are the best match of some detected region:
every other identity's counter is unchanged by the frame, and a region
whose best distance fails the tolerance decrements exactly its own
best-match identity's counter (floored at zero by Nat subtraction),
changing neither the marked set, the ledger, nor the commit log. -/
theorem C10_frame_locality :
    (∀ (ids : List ℕ) (dt tm td : String) (s : GroupState)
        (regions : List (List ℚ)) (sid : ℕ),
        (∀ r ∈ regions, bestSid ids r ≠ some sid) →
        (processFrameGroup ids dt tm td s regions).frame_counts sid =
          s.frame_counts sid) ∧
    (∀ (dt tm : String) (s : CourseState) (regions : List (List ℚ)) (sid : ℕ),
        (∀ r ∈ regions, bestSid s.known_ids_c r ≠ some sid) →
        (processFrameCourse dt tm s regions).frame_counts_c sid =
          s.frame_counts_c sid) ∧
    (∀ (ids : List ℕ) (dt tm td : String) (s : GroupState)
        (dists : List ℚ) (bi : ℕ) (bd : ℚ),
        argminQ dists = some (bi, bd) → ¬ bd ≤ TOLERANCE →
        (processFrameGroup ids dt tm td s [dists]).frame_counts (ids.getD bi 0) =
          s.frame_counts (ids.getD bi 0) - 1 ∧
        (∀ j, j ≠ ids.getD bi 0 →
          (processFrameGroup ids dt tm td s [dists]).frame_counts j =
            s.frame_counts j) ∧
        (processFrameGroup ids dt tm td s [dists]).already_marked =
          s.already_marked ∧
        (processFrameGroup ids dt tm td s [dists]).db = s.db ∧
        (processFrameGroup ids dt tm td s [dists]).commits = s.commits) ∧
    (∀ (dt tm : String) (s : CourseState) (dists : List ℚ) (bi : ℕ) (bd : ℚ),
        argminQ dists = some (bi, bd) → ¬ bd ≤ TOLERANCE →
        (processFrameCourse dt tm s [dists]).frame_counts_c
            (s.known_ids_c.getD bi 0) =
          s.frame_counts_c (s.known_ids_c.getD bi 0) - 1 ∧
        (∀ j, j ≠ s.known_ids_c.getD bi 0 →
          (processFrameCourse dt tm s [dists]).frame_counts_c j =
            s.frame_counts_c j) ∧
        (processFrameCourse dt tm s [dists]).course_marked = s.course_marked ∧
        (processFrameCourse dt tm s [dists]).db = s.db ∧
        (processFrameCourse dt tm s [dists]).commits = s.commits) := by
  refine ⟨?_, ?_, ?_, ?_⟩
  · intro ids dt tm td s regions sid hall
    exact groupFrame_other_counts GROUP_REQ_CONSEC ids dt tm td sid regions s hall
  · intro dt tm s regions sid hall
    exact courseFrame_other_counts dt tm sid regions s hall
  · intro ids dt tm td s dists bi bd hA hd
    have hstep : processFrameGroup ids dt tm td s [dists] =
        processRegionGroupT GROUP_REQ_CONSEC ids dt tm td s dists := rfl
    rw [hstep, processRegionGroupT_nomatch _ _ _ _ _ _ _ _ _ hA hd]
    refine ⟨by simp, fun j hj => ?_, rfl, rfl, rfl⟩
    exact if_neg hj
  · intro dt tm s dists bi bd hA hd
    have hstep : processFrameCourse dt tm s [dists] =
        processRegionCourse dt tm s dists := rfl
    rw [hstep, processRegionCourse_nomatch _ _ _ _ _ _ hA hd]
    refine ⟨by simp, fun j hj => ?_, rfl, rfl, rfl⟩
    exact if_neg hj

/-- Witness for C10: with candidates 1 and 2, a region best-matching 2
leaves 1's counter unchanged, and a failing region decrements only its
best-match identity 1 while 2 keeps its counter 4. -/
theorem C10_frame_locality_witness :
    (processFrameGroup [1, 2] "2025-01-01" "09:00:00" "2025-01-01"
        ⟨fun _ => 2, [], [], []⟩ [[1/2, 1/4]]).frame_counts 1 = 2 ∧
    (processFrameCourse "2025-01-01" "09:00:00"
        ⟨[1, 2], fun _ => 2, [], [], []⟩ [[1/2, 1/4]]).frame_counts_c 1 = 2 ∧
    (processFrameGroup [1, 2] "2025-01-01" "09:00:00" "2025-01-01"
        ⟨fun j => if j = 1 then 3 else 4, [], [], []⟩
        [[1/2, 3/4]]).frame_counts 1 = 2 ∧
    (processFrameGroup [1, 2] "2025-01-01" "09:00:00" "2025-01-01"
        ⟨fun j => if j = 1 then 3 else 4, [], [], []⟩
        [[1/2, 3/4]]).frame_counts 2 = 4 ∧
    (processFrameCourse "2025-01-01" "09:00:00"
        ⟨[1, 2], fun j => if j = 1 then 3 else 4, [], [], []⟩
        [[1/2, 3/4]]).frame_counts_c 1 = 2 :=
  ⟨by
    have h := C10_frame_locality.1 [1, 2] "2025-01-01" "09:00:00" "2025-01-01"
      ⟨fun _ => 2, [], [], []⟩ [[1/2, 1/4]] 1 (by decide)
    rw [h],
   by
    have h := C10_frame_locality.2.1 "2025-01-01" "09:00:00"
      ⟨[1, 2], fun _ => 2, [], [], []⟩ [[1/2, 1/4]] 1 (by decide)
    rw [h],
   by
    have h := (C10_frame_locality.2.2.1 [1, 2] "2025-01-01" "09:00:00"
      "2025-01-01" ⟨fun j => if j = 1 then 3 else 4, [], [], []⟩
      [1/2, 3/4] 0 (1/2) rfl (by decide)).1
    rw [show ([1, 2].getD 0 0) = 1 from rfl] at h
    rw [h]; decide,
   by
    have h := (C10_frame_locality.2.2.1 [1, 2] "2025-01-01" "09:00:00"
      "2025-01-01" ⟨fun j => if j = 1 then 3 else 4, [], [], []⟩
      [1/2, 3/4] 0 (1/2) rfl (by decide)).2.1 2 (by decide)
    rw [h]; decide,
   by
    have h := (C10_frame_locality.2.2.2 "2025-01-01" "09:00:00"
      ⟨[1, 2], fun j => if j = 1 then 3 else 4, [], [], []⟩
      [1/2, 3/4] 0 (1/2) rfl (by decide)).1
    rw [show (([1, 2] : List ℕ).getD 0 0) = 1 from rfl] at h
    rw [h]; decide⟩

/-! ### Identity store: candidate order and partial-failure tolerance -/

instance : IsTotal Student (fun a b => a.reg_no ≤ b.reg_no) :=
  ⟨fun a b => le_total a.reg_no b.reg_no⟩

instance : IsTrans Student (fun a b => a.reg_no ≤ b.reg_no) :=
  ⟨fun _ _ _ hab hbc => le_trans hab hbc⟩

theorem orderByRegNo_sorted (l : List Student) :
    (orderByRegNo l).Pairwise fun a b => a.reg_no ≤ b.reg_no :=
  List.sorted_insertionSort _ l

theorem mem_orderByRegNo {st : Student} {l : List Student} :
    st ∈ orderByRegNo l ↔ st ∈ l :=
  List.mem_insertionSort _

/-- The loader's for-loop keeps, in order, exactly the rows with a
usable embedding. -/
theorem foldl_loadRow_ids {E : Type} (cache : ℕ → Option E)
    (fsExists : String → Bool) (fe : String → Option (List E)) :
    ∀ (l : List Student) (acc : List E × List ℕ × List String),
      (l.foldl (loadRow cache fsExists fe) acc).2.1 =
        acc.2.1 ++ (l.filter (usableB cache fsExists fe)).map Student.id := by
  intro l
  induction l with
  | nil => intro acc; simp
  | cons st l ih =>
    intro acc
    simp only [List.foldl_cons]
    cases hE : getEnc cache fsExists fe st with
    | none =>
      have hstep : loadRow cache fsExists fe acc st = acc := by
        unfold loadRow; rw [hE]
      have hu : usableB cache fsExists fe st = false := by
        simp [usableB, hE]
      rw [hstep, ih]
      simp [List.filter_cons, hu]
    | some e =>
      have hstep : loadRow cache fsExists fe acc st =
          (acc.1 ++ [e], acc.2.1 ++ [st.id], acc.2.2 ++ [studentLabel st]) := by
        unfold loadRow; rw [hE]
      have hu : usableB cache fsExists fe st = true := by
        simp [usableB, hE]
      rw [hstep, ih]
      simp [List.filter_cons, hu]

theorem load_all_ids {E : Type} (cache : ℕ → Option E)
    (fsExists : String → Bool) (fe : String → Option (List E))
    (students : List Student) :
    (load_all_face_encodings cache fsExists fe students).2.1 =
      ((orderByRegNo students).filter (usableB cache fsExists fe)).map
        Student.id := by
  rw [load_all_face_encodings, foldl_loadRow_ids]
  rfl

/-- Counterexample to C6 as stated: with two enrolled students, id 1
with registration number B and id 2 with registration number A, both
with usable embeddings, loadAll returns the candidate ids as 2, 1 —
ordered by registration number, not ascending by identity id. -/
theorem C6_id_order_counterexample :
    (load_all_face_encodings (fun _ => some ()) (fun _ => true)
        (fun _ => some [()])
        [⟨1, "B", "n", "c", some "p"⟩, ⟨2, "A", "n", "c", some "p"⟩]).2.1 =
      [2, 1] ∧
    ¬ List.Pairwise (fun a b => a ≤ b) ([2, 1] : List ℕ) := by
  constructor
  · have hBA : ¬ (("B" : String) ≤ "A") := by simp; decide
    simp [load_all_face_encodings, orderByRegNo, List.insertionSort,
      List.orderedInsert, hBA, loadRow, getEnc]
  · decide

/-- C6 as amended: loadAll and loadGroup return their candidate list
ordered by registration number (reg_no) ascending — the loader queries
say ORDER BY reg_no — not by identity id. -/
theorem C6_regno_order_amended :
    (∀ {E : Type} (cache : ℕ → Option E) (fsExists : String → Bool)
        (fe : String → Option (List E)) (students : List Student),
        (load_all_face_encodings cache fsExists fe students).2.1 =
          ((orderByRegNo students).filter (usableB cache fsExists fe)).map
            Student.id ∧
        ((orderByRegNo students).filter (usableB cache fsExists fe)).Pairwise
          (fun a b => a.reg_no ≤ b.reg_no)) ∧
    (∀ {E : Type} (cache : ℕ → Option E) (fsExists : String → Bool)
        (fe : String → Option (List E)) (students : List Student)
        (course : String), course ≠ "" →
        (load_course_face_encodings cache fsExists fe students course).2.1 =
          ((orderByRegNo (students.filter fun st => st.course == course)).filter
            (usableB cache fsExists fe)).map Student.id ∧
        ((orderByRegNo (students.filter fun st => st.course == course)).filter
          (usableB cache fsExists fe)).Pairwise
            fun a b => a.reg_no ≤ b.reg_no) := by
  constructor
  · intro E cache fsExists fe students
    exact ⟨load_all_ids cache fsExists fe students,
      (orderByRegNo_sorted students).filter _⟩
  · intro E cache fsExists fe students course hc
    rw [load_course_face_encodings, if_neg hc]
    constructor
    · rw [foldl_loadRow_ids]
      rfl
    · exact (orderByRegNo_sorted _).filter _

/-- Witness for C6 as amended, at the two-student store of the
counterexample and at its one-course restriction. -/
theorem C6_regno_order_amended_witness :
    ((load_all_face_encodings (fun _ => some ()) (fun _ => true)
        (fun _ => some [()])
        [⟨1, "B", "n", "c", some "p"⟩, ⟨2, "A", "n", "c", some "p"⟩]).2.1 =
      ((orderByRegNo [⟨1, "B", "n", "c", some "p"⟩, ⟨2, "A", "n", "c", some "p"⟩]).filter
        (usableB (fun _ => some ()) (fun _ => true) (fun _ => some [()]))).map
          Student.id) ∧
    ((load_course_face_encodings (fun _ => some ()) (fun _ => true)
        (fun _ => some [()])
        [⟨1, "B", "n", "c", some "p"⟩, ⟨2, "A", "n", "c", some "p"⟩] "c").2.1 =
      ((orderByRegNo ([⟨1, "B", "n", "c", some "p"⟩,
          ⟨2, "A", "n", "c", some "p"⟩].filter fun st => st.course == "c")).filter
        (usableB (fun _ => some ()) (fun _ => true) (fun _ => some [()]))).map
          Student.id) :=
  ⟨(C6_regno_order_amended.1 (fun _ => some ()) (fun _ => true)
      (fun _ => some [()])
      [⟨1, "B", "n", "c", some "p"⟩, ⟨2, "A", "n", "c", some "p"⟩]).1,
   (C6_regno_order_amended.2 (fun _ => some ()) (fun _ => true)
      (fun _ => some [()])
      [⟨1, "B", "n", "c", some "p"⟩, ⟨2, "A", "n", "c", some "p"⟩] "c"
      (by decide)).1⟩

/-- C7: an enrollment row with no usable embedding — photo path absent,
file missing, or no face found (and not cached) — is silently excluded
from the candidate ids returned by loadAll, every other row with a
usable embedding is still included, and the excluded row still appears
in the people list used for display.  The last three conjuncts record
that each of the three failure shapes indeed yields no embedding.  All
functions involved are total: no error is raised. -/
theorem C7_partial_failure :
    ∀ {E : Type} (cache : ℕ → Option E) (fsExists : String → Bool)
      (fe : String → Option (List E)) (students : List Student) (s : Student),
      s ∈ students → (students.map Student.id).Nodup →
      cache s.id = none →
      safe_face_encoding_from_file fsExists fe s.photo_path = none →
      s.id ∉ (load_all_face_encodings cache fsExists fe students).2.1 ∧
      (∀ t ∈ students, usableB cache fsExists fe t = true →
        t.id ∈ (load_all_face_encodings cache fsExists fe students).2.1) ∧
      s ∈ load_students students ∧
      safe_face_encoding_from_file fsExists fe (none : Option String) = none ∧
      (∀ p, fsExists p = false →
        safe_face_encoding_from_file fsExists fe (some p) = none) ∧
      (∀ p, fe p = some [] →
        safe_face_encoding_from_file fsExists fe (some p) = none) := by
  intro E cache fsExists fe students s hs hnodup hcache hsafe
  have huns : usableB cache fsExists fe s = false := by
    simp [usableB, getEnc, hcache, hsafe]
  refine ⟨?_, ?_, ?_, rfl, ?_, ?_⟩
  · rw [load_all_ids]
    intro hmem
    obtain ⟨t, htf, hts⟩ := List.mem_map.mp hmem
    obtain ⟨hto, htu⟩ := List.mem_filter.mp htf
    have hts2 : t = s :=
      List.inj_on_of_nodup_map hnodup (mem_orderByRegNo.mp hto) hs hts
    rw [hts2, huns] at htu
    exact Bool.false_ne_true htu
  · intro t ht htu
    rw [load_all_ids]
    exact List.mem_map.mpr ⟨t,
      List.mem_filter.mpr ⟨mem_orderByRegNo.mpr ht, htu⟩, rfl⟩
  · exact mem_orderByRegNo.mpr hs
  · intro p hp
    simp [safe_face_encoding_from_file, hp]
  · intro p hp
    simp [safe_face_encoding_from_file, hp]

/-- Witness for C7: id 1 is enrolled with no photo path and excluded,
id 2 has a usable photo and is included, and id 1 still shows in the
display list. -/
theorem C7_partial_failure_witness :
    1 ∉ (load_all_face_encodings (fun _ => none)
        (fun q => q == "p") (fun _ => some [()])
        [⟨1, "A", "x", "c", none⟩, ⟨2, "B", "y", "c", some "p"⟩]).2.1 ∧
    2 ∈ (load_all_face_encodings (fun _ => none)
        (fun q => q == "p") (fun _ => some [()])
        [⟨1, "A", "x", "c", none⟩, ⟨2, "B", "y", "c", some "p"⟩]).2.1 ∧
    (⟨1, "A", "x", "c", none⟩ : Student) ∈
      load_students [⟨1, "A", "x", "c", none⟩, ⟨2, "B", "y", "c", some "p"⟩] :=
  have h := C7_partial_failure (fun _ => none) (fun q => q == "p")
    (fun _ => some [()])
    [⟨1, "A", "x", "c", none⟩, ⟨2, "B", "y", "c", some "p"⟩]
    ⟨1, "A", "x", "c", none⟩
    (List.mem_cons_self _ _) (by decide) rfl rfl
  ⟨h.1, h.2.1 ⟨2, "B", "y", "c", some "p"⟩
      (List.mem_cons_of_mem _ (List.mem_cons_self _ _)) rfl, h.2.2.1⟩

end RatKernelComputation

end VSV
